import Mathlib

/-!
Verification of the consensus-driven ledger core (Namada fork).

This file shallowly embeds the Rust sources and proves or refutes the
frozen specification claims about them:

* `core/src/proto/types.rs` — the transaction model and codec
  (`Tx`, `TxCode`, `Tx::try_from`, `Tx::to_bytes`, `Tx::partial_hash`);
* `apps/src/lib/node/ledger/shell/prepare_proposal.rs` —
  `build_vote_extensions_txs`, `build_mempool_txs`, `build_decrypted_txs`
  and the `record` helpers;
* `apps/src/lib/node/ledger/shell/governance.rs` —
  `execute_governance_proposals`;
* `shared/src/ledger/eth_bridge/bridge_pool.rs` — the relayer batch
  recommendation (`generate`) and the exported `recommend_batch` stub.

Machine integers are modelled as `Nat`/`Int` (the inputs involved never
overflow `u64`/`i64`), bytes as `Nat`, fallible code as
`Option`/`Except`, and Rust panics as explicit variants.
-/

namespace Namada

/-! ## Protobuf-style wire codec for `types::Tx`

The prost-generated `types::Tx` codec is not part of the sources.
Modelled from the spec: "a length-prefixed, field-tagged encoding with a
fixed ordering: code | is_code_hash_flag | optional(data) | timestamp |
optional(inner_tx) | optional(inner_tx_code)".  Lengths and the
timestamp payload are LEB128 varints; each field starts with its tag
byte; absent optional fields are omitted.
-/

/-- LEB128 varint encoding of a natural number (7 bits per byte,
little-endian, high bit marks continuation). -/
def encodeVarint (n : Nat) : List Nat :=
  if h : n < 128 then [n]
  else (128 + n % 128) :: encodeVarint (n / 128)
termination_by n
decreasing_by exact Nat.div_lt_self (by omega) (by omega)

/-- LEB128 varint decoder; returns the value and the unconsumed tail. -/
def decodeVarint : List Nat → Option (Nat × List Nat)
  | [] => none
  | b :: rest =>
    if b < 128 then some (b, rest)
    else
      match decodeVarint rest with
      | some (m, r) => some ((b - 128) + 128 * m, r)
      | none => none

theorem decodeVarint_encodeVarint (n : Nat) (rest : List Nat) :
    decodeVarint (encodeVarint n ++ rest) = some (n, rest) := by
  induction n using Nat.strong_induction_on generalizing rest with
  | _ n ih =>
    rw [encodeVarint]
    by_cases h : n < 128
    · simp [h, decodeVarint]
    · have hdiv : n / 128 < n := Nat.div_lt_self (by omega) (by omega)
      simp only [dif_neg h, List.cons_append, decodeVarint]
      rw [if_neg (by omega)]
      rw [ih (n / 128) hdiv rest]
      simp only [Option.some.injEq, Prod.mk.injEq]
      exact ⟨by omega, trivial⟩

/-- A tagged, length-prefixed bytes field. -/
def encodeBytesField (tag : Nat) (bs : List Nat) : List Nat :=
  tag :: encodeVarint bs.length ++ bs

/-- Decoder for a tagged, length-prefixed bytes field. -/
def decodeBytesField (tag : Nat) : List Nat → Option (List Nat × List Nat)
  | [] => none
  | b :: rest =>
    if b = tag then
      match decodeVarint rest with
      | some (len, r) =>
        if len ≤ r.length then some (r.take len, r.drop len) else none
      | none => none
    else none

theorem decodeBytesField_encodeBytesField (tag : Nat) (bs rest : List Nat) :
    decodeBytesField tag (encodeBytesField tag bs ++ rest) = some (bs, rest) := by
  simp only [encodeBytesField, List.cons_append, List.append_assoc, decodeBytesField,
    if_pos rfl, decodeVarint_encodeVarint]
  rw [if_pos (by simp)]
  simp [List.take_left, List.drop_left]

/-- An optional tagged bytes field: omitted when absent. -/
def encodeOptBytesField (tag : Nat) : Option (List Nat) → List Nat
  | none => []
  | some bs => encodeBytesField tag bs

/-- Decoder for an optional tagged bytes field: present exactly when the
next byte is this field's tag. -/
def decodeOptBytesField (tag : Nat) (l : List Nat) :
    Option (Option (List Nat) × List Nat) :=
  match l with
  | [] => some (none, [])
  | b :: _ =>
    if b = tag then
      match decodeBytesField tag l with
      | some (v, r) => some (some v, r)
      | none => none
    else some (none, l)

theorem decodeOptBytesField_some (tag : Nat) (bs rest : List Nat) :
    decodeOptBytesField tag (encodeBytesField tag bs ++ rest) = some (some bs, rest) := by
  have h := decodeBytesField_encodeBytesField tag bs rest
  simp only [encodeBytesField, List.cons_append, List.append_assoc] at h ⊢
  simp [decodeOptBytesField, h]

theorem decodeOptBytesField_none (tag : Nat) (l : List Nat)
    (h : ∀ b, l.head? = some b → b ≠ tag) :
    decodeOptBytesField tag l = some (none, l) := by
  cases l with
  | nil => rfl
  | cons b rest =>
    have hb : b ≠ tag := h b rfl
    simp [decodeOptBytesField, hb]

/-- A tagged single-varint field (used for the timestamp message). -/
def encodeVarintField (tag : Nat) (n : Nat) : List Nat :=
  tag :: encodeVarint n

/-- An optional tagged varint field: omitted when absent. -/
def encodeOptVarintField (tag : Nat) : Option Nat → List Nat
  | none => []
  | some n => encodeVarintField tag n

/-- Decoder for an optional tagged varint field. -/
def decodeOptVarintField (tag : Nat) (l : List Nat) :
    Option (Option Nat × List Nat) :=
  match l with
  | [] => some (none, [])
  | b :: rest =>
    if b = tag then
      match decodeVarint rest with
      | some (n, r) => some (some n, r)
      | none => none
    else some (none, l)

theorem decodeOptVarintField_some (tag n : Nat) (rest : List Nat) :
    decodeOptVarintField tag (encodeVarintField tag n ++ rest) = some (some n, rest) := by
  simp [encodeVarintField, decodeOptVarintField, decodeVarint_encodeVarint]

theorem decodeOptVarintField_none (tag : Nat) (l : List Nat)
    (h : ∀ b, l.head? = some b → b ≠ tag) :
    decodeOptVarintField tag l = some (none, l) := by
  cases l with
  | nil => rfl
  | cons b rest =>
    have hb : b ≠ tag := h b rfl
    simp [decodeOptVarintField, hb]

/-- A tagged boolean field: the tag byte followed by `0` or `1`. -/
def encodeBoolField (tag : Nat) (b : Bool) : List Nat :=
  [tag, if b then 1 else 0]

/-- Decoder for a tagged boolean field (any nonzero payload is `true`,
as in prost). -/
def decodeBoolField (tag : Nat) : List Nat → Option (Bool × List Nat)
  | t :: v :: rest => if t = tag then some (decide (v ≠ 0), rest) else none
  | _ => none

theorem decodeBoolField_encodeBoolField (tag : Nat) (b : Bool) (rest : List Nat) :
    decodeBoolField tag (encodeBoolField tag b ++ rest) = some (b, rest) := by
  cases b <;> simp [encodeBoolField, decodeBoolField]

/-- The prost-generated message `types::Tx` (field for field).  The
timestamp payload is modelled as a single `Nat`. -/
structure ProtoTx where
  code : List Nat
  is_code_hash : Bool
  data : Option (List Nat)
  timestamp : Option Nat
  inner_tx : Option (List Nat)
  inner_tx_code : Option (List Nat)
deriving DecidableEq

/-- Modelled from the spec: the canonical wire encoding of `types::Tx` —
length-prefixed, field-tagged, fixed ordering
`code | is_code_hash_flag | optional(data) | timestamp |
optional(inner_tx) | optional(inner_tx_code)` (tags 1–6). -/
def encodeProtoTx (t : ProtoTx) : List Nat :=
  encodeBytesField 1 t.code
    ++ encodeBoolField 2 t.is_code_hash
    ++ encodeOptBytesField 3 t.data
    ++ encodeOptVarintField 4 t.timestamp
    ++ encodeOptBytesField 5 t.inner_tx
    ++ encodeOptBytesField 6 t.inner_tx_code

/-- Modelled from the spec: the wire decoder for `types::Tx`, parsing
the six fields in their fixed order and requiring the input to be fully
consumed. -/
def decodeProtoTx (l : List Nat) : Option ProtoTx :=
  (decodeBytesField 1 l).bind fun p1 =>
  (decodeBoolField 2 p1.2).bind fun p2 =>
  (decodeOptBytesField 3 p2.2).bind fun p3 =>
  (decodeOptVarintField 4 p3.2).bind fun p4 =>
  (decodeOptBytesField 5 p4.2).bind fun p5 =>
  (decodeOptBytesField 6 p5.2).bind fun p6 =>
  if p6.2.isEmpty then some ⟨p1.1, p2.1, p3.1, p4.1, p5.1, p6.1⟩ else none

/-- Round trip for an optional bytes field followed by bytes that do not
start with this field's tag. -/
theorem decodeOptBytesField_encodeOpt (tag : Nat) (o : Option (List Nat))
    (rest : List Nat) (h : ∀ b, rest.head? = some b → b ≠ tag) :
    decodeOptBytesField tag (encodeOptBytesField tag o ++ rest) = some (o, rest) := by
  cases o with
  | none => simpa [encodeOptBytesField] using decodeOptBytesField_none tag rest h
  | some bs => simpa [encodeOptBytesField] using decodeOptBytesField_some tag bs rest

/-- Round trip for an optional varint field followed by bytes that do
not start with this field's tag. -/
theorem decodeOptVarintField_encodeOpt (tag : Nat) (o : Option Nat)
    (rest : List Nat) (h : ∀ b, rest.head? = some b → b ≠ tag) :
    decodeOptVarintField tag (encodeOptVarintField tag o ++ rest) = some (o, rest) := by
  cases o with
  | none => simpa [encodeOptVarintField] using decodeOptVarintField_none tag rest h
  | some n => simpa [encodeOptVarintField] using decodeOptVarintField_some tag n rest

/-- Decoding an encoded `ProtoTx` whose timestamp field is present
recovers the message exactly. -/
theorem decodeProtoTx_encodeProtoTx (code : List Nat) (flag : Bool)
    (data : Option (List Nat)) (ts : Nat) (itx itxc : Option (List Nat)) :
    decodeProtoTx (encodeProtoTx ⟨code, flag, data, some ts, itx, itxc⟩)
      = some ⟨code, flag, data, some ts, itx, itxc⟩ := by
  have h6 : decodeOptBytesField 6 (encodeOptBytesField 6 itxc) = some (itxc, []) := by
    have := decodeOptBytesField_encodeOpt 6 itxc [] (by intro b hb; simp at hb)
    simpa using this
  have h5 : ∀ b : Nat, (encodeOptBytesField 6 itxc).head? = some b → b ≠ 5 := by
    intro b hb
    cases itxc with
    | none => simp [encodeOptBytesField] at hb
    | some bs =>
      simp [encodeOptBytesField, encodeBytesField] at hb
      omega
  have h3 : ∀ b : Nat,
      (encodeOptVarintField 4 (some ts) ++
        (encodeOptBytesField 5 itx ++ encodeOptBytesField 6 itxc)).head?
        = some b → b ≠ 3 := by
    intro b hb
    simp [encodeOptVarintField, encodeVarintField] at hb
    omega
  simp only [encodeProtoTx, List.append_assoc, decodeProtoTx]
  rw [decodeBytesField_encodeBytesField]
  simp only [Option.some_bind]
  rw [decodeBoolField_encodeBoolField]
  simp only [Option.some_bind]
  rw [decodeOptBytesField_encodeOpt 3 data _ h3]
  simp only [Option.some_bind]
  rw [decodeOptVarintField_encodeOpt 4 (some ts) _ ?h4]
  case h4 =>
    intro b hb
    cases itx <;> cases itxc <;>
      simp [encodeOptBytesField, encodeBytesField] at hb <;> omega
  simp only [Option.some_bind]
  rw [decodeOptBytesField_encodeOpt 5 itx _ h5]
  simp only [Option.some_bind]
  rw [h6]
  simp

/-! ## Borsh encoding of `Vec<u8>`

The `inner_tx`/`inner_tx_code` blobs are Borsh-serialized before being
placed in the protobuf message (`x.try_to_vec()`), and Borsh-decoded on
the way out (`BorshDeserialize::try_from_slice`): a little-endian `u32`
length prefix followed by the bytes, with the whole slice consumed. -/

/-- Little-endian 4-byte encoding of a length (Borsh `u32`). -/
def u32le (n : Nat) : List Nat :=
  [n % 256, n / 256 % 256, n / 65536 % 256, n / 16777216 % 256]

/-- Borsh serialization of a `Vec<u8>`. -/
def encodeBorshVec (bs : List Nat) : List Nat :=
  u32le bs.length ++ bs

/-- Borsh `try_from_slice` for a `Vec<u8>`: parse the length prefix and
require the remainder to have exactly that length. -/
def decodeBorshVec (l : List Nat) : Option (List Nat) :=
  match l with
  | a :: b :: c :: d :: rest =>
    if rest.length = a + 256 * b + 65536 * c + 16777216 * d then some rest else none
  | _ => none

theorem decodeBorshVec_encodeBorshVec (bs : List Nat) (h : bs.length < 4294967296) :
    decodeBorshVec (encodeBorshVec bs) = some bs := by
  simp only [encodeBorshVec, u32le, List.cons_append, List.nil_append, decodeBorshVec]
  rw [if_pos (by omega)]

/-! ## The transaction model (`core/src/proto/types.rs`)

Bytes are `Nat`s, `DateTimeUtc` is a `Nat`, and the SHA-256 `hash_tx`
function is an explicit parameter `hashFn` (the codec never depends on
its definition).  The `ferveo-tpke` feature is off, so `inner_tx` and
`inner_tx_code` are optional byte vectors. -/

/-- `TxCode`: either the 32-byte hash of the code or the literal code. -/
inductive TxCode where
  | Hash (h : List Nat)
  | Literal (c : List Nat)
deriving DecidableEq

namespace TxCode

/-- `TxCode::code`: the literal transaction code, if available. -/
def code : TxCode → Option (List Nat)
  | .Hash _ => none
  | .Literal lit => some lit

/-- `TxCode::code_hash`: the stored hash, or the hash of the literal. -/
def code_hash (hashFn : List Nat → List Nat) : TxCode → List Nat
  | .Hash h => h
  | .Literal lit => hashFn lit

/-- `TxCode::is_hash`. -/
def is_hash : TxCode → Bool
  | .Hash _ => true
  | .Literal _ => false

end TxCode

/-- The `Tx` struct (non-`ferveo-tpke` branch). -/
structure Tx where
  code : TxCode
  data : Option (List Nat)
  timestamp : Nat
  inner_tx : Option (List Nat)
  inner_tx_code : Option (List Nat)
deriving DecidableEq

/-- `From<Tx> for types::Tx`: the conversion of a `Tx` into the
protobuf message (`code.code().unwrap_or_else(code_hash)` never hashes:
for a `Hash` variant the stored hash itself is used). -/
def Tx.toProto (tx : Tx) : ProtoTx where
  code := match tx.code with
    | .Literal c => c
    | .Hash h => h
  is_code_hash := tx.code.is_hash
  data := tx.data
  timestamp := some tx.timestamp
  inner_tx := tx.inner_tx.map encodeBorshVec
  inner_tx_code := tx.inner_tx_code.map encodeBorshVec

/-- `Tx::to_bytes`: encode the converted protobuf message. -/
def Tx.to_bytes (tx : Tx) : List Nat :=
  encodeProtoTx tx.toProto

/-- The error enum of `core/src/proto/types.rs` (the variants reachable
from `Tx::try_from`), plus an explicit variant for the
`expect("Unable to deserialize code hash")` panic when a hash-flagged
code field is not 32 bytes long. -/
inductive TxError where
  | TxDecodingError
  | TxDeserializingError
  | NoTimestampError
  | CodeHashPanic
deriving DecidableEq

/-- Decode one optional Borsh blob, mapping failure to
`TxDeserializingError` (the `.map(...).transpose()?` pattern). -/
def decodeOptBorsh : Option (List Nat) → Except TxError (Option (List Nat))
  | none => .ok none
  | some b =>
    match decodeBorshVec b with
    | some v => .ok (some v)
    | none => .error .TxDeserializingError

/-- `Tx::try_from(&[u8])`: protobuf-decode, then require a timestamp,
Borsh-decode the inner blobs, and rebuild the code from the flag.  (The
`InvalidTimestamp` branch cannot arise in this model, where a timestamp
payload is any `Nat`.) -/
def Tx.tryFrom (l : List Nat) : Except TxError Tx :=
  match decodeProtoTx l with
  | none => .error .TxDecodingError
  | some p =>
    match p.timestamp with
    | none => .error .NoTimestampError
    | some ts =>
      match decodeOptBorsh p.inner_tx with
      | .error e => .error e
      | .ok itx =>
        match decodeOptBorsh p.inner_tx_code with
        | .error e => .error e
        | .ok itxc =>
          if p.is_code_hash then
            if p.code.length = 32 then
              .ok ⟨.Hash p.code, p.data, ts, itx, itxc⟩
            else
              .error .CodeHashPanic
          else
            .ok ⟨.Literal p.code, p.data, ts, itx, itxc⟩

/-- A well-formed `Tx`: a hash-variant code is exactly 32 bytes, and the
inner blobs fit Borsh's `u32` length prefix. -/
def Tx.wellFormed (tx : Tx) : Bool :=
  (match tx.code with
    | .Hash h => h.length = 32
    | .Literal _ => true) &&
  (match tx.inner_tx with
    | some b => b.length < 4294967296
    | none => true) &&
  (match tx.inner_tx_code with
    | some b => b.length < 4294967296
    | none => true)

/-- `Tx::partial_hash`: hash the message rebuilt with the code hash in
place of the code, the hash flag set, and the inner blobs dropped. -/
def Tx.partialHash (hashFn : List Nat → List Nat) (tx : Tx) : List Nat :=
  hashFn (encodeProtoTx
    { code := tx.code.code_hash hashFn
      is_code_hash := true
      data := tx.data
      timestamp := some tx.timestamp
      inner_tx := none
      inner_tx_code := none })

/-- C6: for every well-formed transaction, decoding its encoding
succeeds and returns an equal transaction
(`Tx::try_from(tx.to_bytes()) == Ok(tx)`), and the encoding is
deterministic: equal transactions encode to byte-equal outputs. -/
theorem namadaC6_tx_roundtrip (tx : Tx) (hwf : tx.wellFormed = true) :
    Tx.tryFrom tx.to_bytes = .ok tx ∧
    ∀ tx' : Tx, tx = tx' → tx.to_bytes = tx'.to_bytes := by
  constructor
  · obtain ⟨code, data, ts, itx, itxc⟩ := tx
    simp only [Tx.wellFormed, Bool.and_eq_true, decide_eq_true_eq] at hwf
    cases code <;> cases itx <;> cases itxc <;>
      simp_all [Tx.to_bytes, Tx.toProto, TxCode.is_hash, Tx.tryFrom,
        decodeProtoTx_encodeProtoTx, decodeOptBorsh, decodeBorshVec_encodeBorshVec]
  · intro tx' h
    rw [h]

/-- Witness for C6 at a concrete transaction. -/
theorem namadaC6_tx_roundtrip_witness :
    (Tx.wellFormed ⟨.Hash (List.replicate 32 7), some [1, 2], 5, some [9], none⟩ = true) ∧
    (Tx.tryFrom (Tx.to_bytes ⟨.Hash (List.replicate 32 7), some [1, 2], 5, some [9], none⟩)
        = .ok ⟨.Hash (List.replicate 32 7), some [1, 2], 5, some [9], none⟩ ∧
      ∀ tx' : Tx, (⟨.Hash (List.replicate 32 7), some [1, 2], 5, some [9], none⟩ : Tx) = tx' →
        Tx.to_bytes ⟨.Hash (List.replicate 32 7), some [1, 2], 5, some [9], none⟩
          = tx'.to_bytes) :=
  ⟨by decide, namadaC6_tx_roundtrip _ (by decide)⟩

/-- C7: `partial_hash` depends only on the code hash, the data and the
timestamp; in particular a literal-code transaction and its
hash-code-contracted form have the same partial hash, whatever the inner
blobs are. -/
theorem namadaC7_partial_hash (hashFn : List Nat → List Nat) :
    (∀ t1 t2 : Tx, t1.code.code_hash hashFn = t2.code.code_hash hashFn →
      t1.data = t2.data → t1.timestamp = t2.timestamp →
      t1.partialHash hashFn = t2.partialHash hashFn) ∧
    (∀ (c : List Nat) (d : Option (List Nat)) (ts : Nat) (i1 j1 i2 j2 : Option (List Nat)),
      Tx.partialHash hashFn ⟨.Literal c, d, ts, i1, j1⟩
        = Tx.partialHash hashFn ⟨.Hash (hashFn c), d, ts, i2, j2⟩) := by
  constructor
  · intro t1 t2 hc hd ht
    simp only [Tx.partialHash, hc, hd, ht]
  · intro c d ts i1 j1 i2 j2
    simp only [Tx.partialHash, TxCode.code_hash]

/-- Witness for C7 at a concrete hash function and transactions. -/
theorem namadaC7_partial_hash_witness :
    Tx.partialHash (fun l => l) ⟨.Literal [1], some [2], 3, none, none⟩
      = Tx.partialHash (fun l => l) ⟨.Hash [1], some [2], 3, some [9], some [8]⟩ :=
  (namadaC7_partial_hash (fun l => l)).1
    ⟨.Literal [1], some [2], 3, none, none⟩
    ⟨.Hash [1], some [2], 3, some [9], some [8]⟩ rfl rfl rfl

/-! ## PrepareProposal
(`apps/src/lib/node/ledger/shell/prepare_proposal.rs`)

Transactions on the wire are opaque byte lists.  The mempool
classification `Tx::try_from(bytes).map(process_tx)` is abstracted into
a boolean predicate (its internals live outside this file's sources in
`core`), the tx queue entries and the DKG decryption into type
parameters.  The Rust `expect` panics are an explicit `panicked`
variant. -/

/-- The numeric `TxAction` codes of `tendermint_proto::abci::tx_record`
(`Unknown = 0`, `Unmodified = 1`, `Added = 2`, `Removed = 3`). -/
structure TxRecord where
  action : Nat
  tx : List Nat
deriving DecidableEq

namespace record

/-- `record::keep`: keep this transaction in the proposal
(`TxAction::Unmodified`). -/
def keep (tx : List Nat) : TxRecord := ⟨1, tx⟩

/-- `record::add`: a transaction added to the proposal
(`TxAction::Added`). -/
def add (tx : List Nat) : TxRecord := ⟨2, tx⟩

/-- `record::remove`: remove this transaction
(`TxAction::Removed`). -/
def remove (tx : List Nat) : TxRecord := ⟨3, tx⟩

end record

/-- `Shell::build_mempool_txs`: take the first `1 + |txs| / 2`
transactions from the mempool snapshot, keeping the ones that classify
as valid wrappers (`Ok(Ok(TxType::Wrapper(_)))`, abstracted as the
predicate `isWrapper`) and removing every other one. -/
def build_mempool_txs (isWrapper : List Nat → Bool) (txs : List (List Nat)) :
    List TxRecord :=
  let number_of_new_txs := 1 + txs.length / 2
  (txs.take number_of_new_txs).map fun tx_bytes =>
    if isWrapper tx_bytes then record.keep tx_bytes else record.remove tx_bytes

/-- The `DecryptedTx` kind produced for the queue replay: the decrypted
inner transaction, or an undecryptable placeholder carrying the wrapper. -/
inductive DecryptedTx (W T : Type) where
  | Decrypted (tx : T)
  | Undecryptable (w : W)

/-- `Shell::build_decrypted_txs`: map over the committed tx queue in
FIFO order, decrypting each wrapper (`decrypt`, abstract: the hardcoded
DKG key and curve arithmetic live outside these sources) and encoding
the resulting `DecryptedTx` (`enc` abstracts
`Tx::from(..).to_bytes()`); every record is `record::add`. -/
def build_decrypted_txs {W T : Type} (decrypt : W → Option T)
    (enc : DecryptedTx W T → List Nat) (tx_queue : List W) : List TxRecord :=
  tx_queue.map fun tx =>
    record.add (enc (match decrypt tx with
      | some t => .Decrypted t
      | none => .Undecryptable tx))

/-- Sum of the stakes of a set of signers. -/
def sumStake (stakeOf : Nat → Nat) (signers : List Nat) : Nat :=
  (signers.map stakeOf).sum

/-- Modelled from the spec: `Shell::compress_ethereum_events` (defined
outside these sources) — "Retain only events whose signer set totals
> 2/3 of stake at the relevant epoch", returning `None` when no
multi-signed event with a quorum remains.  Events are abstract (`E`),
signers are validator indices with stakes given by `stakeOf`, and
`totalStake` is the total stake at the relevant epoch. -/
def compress_ethereum_events {E : Type} (totalStake : Nat) (stakeOf : Nat → Nat)
    (events : List (E × List Nat)) : Option (List (E × List Nat)) :=
  let retained := events.filter fun p => 2 * totalStake < 3 * sumStake stakeOf p.2
  if retained.isEmpty then none else some retained

/-- The result of a Rust computation that may `panic!`/`expect`. -/
inductive PanicOr (α : Type) where
  | panicked (msg : String)
  | ok (val : α)
deriving DecidableEq

/-- ProcessProposal's verdict on a proposed block. -/
inductive BlockDecision where
  | Accept
  | Reject
deriving DecidableEq

/-- Modelled from the spec: the ProcessProposal-side validation of an
Ethereum-events digest (ProcessProposal is not under these sources) —
"A quorum below this bound is a fatal invariant violation at
ProcessProposal time (proposer is Byzantine) and the block must be
rejected": accept only if every multi-signed event carries signer stake
strictly above 2/3 of the total at the relevant epoch. -/
def process_proposal_digest {E : Type} (totalStake : Nat) (stakeOf : Nat → Nat)
    (digest : List (E × List Nat)) : BlockDecision :=
  if digest.all (fun p => decide (2 * totalStake < 3 * sumStake stakeOf p.2)) then
    .Accept
  else
    .Reject

/-- The `expect` message on an absent quorum. -/
def NOT_ENOUGH_VOTING_POWER_MSG : String :=
  "A Tendermint quorum should never decide on a block including vote extensions reflecting less than or equal to 2 thirds of the total stake."

/-- `Shell::build_vote_extensions_txs`: empty on the genesis block;
otherwise `expect` vote extensions to be present and `expect` the
compressed digest to exist — an absent quorum is a fatal panic.  On
success, one `record::add` protocol transaction carries the digest
(`digestTx` abstracts `iter_protocol_txs(..).sign(..).to_bytes()`). -/
def build_vote_extensions_txs {E : Type} (last_height : Nat) (totalStake : Nat)
    (stakeOf : Nat → Nat) (digestTx : List (E × List Nat) → List Nat)
    (local_last_commit : Option (List (E × List Nat))) : PanicOr (List TxRecord) :=
  if last_height = 0 then .ok [] else
  match local_last_commit with
  | none => .panicked "Honest Namada validators will always sign ethereum_events Vext instances."
  | some votes =>
    match compress_ethereum_events totalStake stakeOf votes with
    | none => .panicked NOT_ENOUGH_VOTING_POWER_MSG
    | some events => .ok [record.add (digestTx events)]

/-- C5: `build_mempool_txs` emits records only for the first
`1 + ⌊n/2⌋ ≤ ⌈n/2⌉ + 1` mempool transactions, so at most `⌈n/2⌉ + 1`
are kept; every emitted record keeps a transaction exactly when it
classifies as a valid wrapper and removes it otherwise — a wrapper whose
signature check fails classifies as invalid and is never kept. -/
theorem namadaC5_mempool_cap (isWrapper : List Nat → Bool) (txs : List (List Nat)) :
    ((build_mempool_txs isWrapper txs).filter (fun r => r.action = 1)).length
        ≤ (txs.length + 1) / 2 + 1 ∧
    ∀ r ∈ build_mempool_txs isWrapper txs,
      (isWrapper r.tx = true ∧ r = record.keep r.tx) ∨
      (isWrapper r.tx = false ∧ r = record.remove r.tx) := by
  constructor
  · have h1 := List.length_filter_le (fun r => decide (r.action = 1))
      (build_mempool_txs isWrapper txs)
    have h2 : (build_mempool_txs isWrapper txs).length
        = min (1 + txs.length / 2) txs.length := by
      simp [build_mempool_txs]
    omega
  · intro r hr
    simp only [build_mempool_txs, List.mem_map] at hr
    obtain ⟨b, _, rfl⟩ := hr
    by_cases hw : isWrapper b <;> simp [hw, record.keep, record.remove]

/-- Witness for C5: with a concrete classifier, a kept record is a
classified wrapper. -/
theorem namadaC5_mempool_cap_witness :
    ((fun b => decide (b = [1])) (record.keep [1]).tx = true ∧
      record.keep [1] = record.keep (record.keep [1]).tx) ∨
    ((fun b => decide (b = [1])) (record.keep [1]).tx = false ∧
      record.keep [1] = record.remove (record.keep [1]).tx) :=
  (namadaC5_mempool_cap (fun b => decide (b = [1])) [[1], [2], [3]]).2
    (record.keep [1]) (by decide)

/-- C4: `build_decrypted_txs` returns exactly one added record per
entry of the committed tx queue, in FIFO order: the i-th record is the
i-th queue entry's decryption when it succeeds, and an `Undecryptable`
placeholder for that same entry when it fails. -/
theorem namadaC4_decrypted_fifo {W T : Type} (decrypt : W → Option T)
    (enc : DecryptedTx W T → List Nat) (tx_queue : List W) :
    (build_decrypted_txs decrypt enc tx_queue).length = tx_queue.length ∧
    ∀ i : Nat, (build_decrypted_txs decrypt enc tx_queue)[i]? =
      (tx_queue[i]?).map fun w =>
        record.add (enc (match decrypt w with
          | some t => .Decrypted t
          | none => .Undecryptable w)) := by
  refine ⟨by simp [build_decrypted_txs], fun i => ?_⟩
  simp [build_decrypted_txs]

/-- C2: aggregating vote extensions whose every multi-signed event has
signer stake ≤ 2/3 of the total is a fatal quorum violation in
`build_vote_extensions_txs` (the proposer panics instead of returning a
digest); any digest `compress_ethereum_events` does produce carries
only events whose signer stake exceeds 2/3 of the total; and a block
whose digest contains an event with signer stake ≤ 2/3 is rejected at
ProcessProposal time. -/
theorem namadaC2_quorum {E : Type} (last_height totalStake : Nat)
    (stakeOf : Nat → Nat) (digestTx : List (E × List Nat) → List Nat)
    (votes : List (E × List Nat)) :
    (last_height ≠ 0 →
      (∀ p ∈ votes, 3 * sumStake stakeOf p.2 ≤ 2 * totalStake) →
      build_vote_extensions_txs last_height totalStake stakeOf digestTx (some votes)
        = .panicked NOT_ENOUGH_VOTING_POWER_MSG) ∧
    (∀ retained, compress_ethereum_events totalStake stakeOf votes = some retained →
      ∀ p ∈ retained, 2 * totalStake < 3 * sumStake stakeOf p.2) ∧
    (∀ digest : List (E × List Nat),
      (∃ p ∈ digest, 3 * sumStake stakeOf p.2 ≤ 2 * totalStake) →
      process_proposal_digest totalStake stakeOf digest = .Reject) := by
  refine ⟨?_, ?_, ?_⟩
  · intro hh hle
    have hfil : votes.filter (fun p => decide (2 * totalStake < 3 * sumStake stakeOf p.2))
        = [] := by
      rw [List.filter_eq_nil_iff]
      intro p hp
      have := hle p hp
      simp only [decide_eq_true_eq]
      omega
    simp [build_vote_extensions_txs, hh, compress_ethereum_events, hfil]
  · intro retained hret p hp
    simp only [compress_ethereum_events] at hret
    split at hret
    · exact absurd hret (by simp)
    · cases hret
      have := List.mem_filter.mp hp
      simpa using this.2
  · rintro digest ⟨p, hp, hle⟩
    simp only [process_proposal_digest]
    rw [if_neg]
    intro hall
    rw [List.all_eq_true] at hall
    have := hall p hp
    simp only [decide_eq_true_eq] at this
    omega

/-- Witness for C2: a single zero-stake signer forces the quorum panic
in PrepareProposal, and the same under-quorum digest is rejected by the
ProcessProposal check. -/
theorem namadaC2_quorum_witness :
    (build_vote_extensions_txs 2 1 (fun _ => 0) (fun _ => ([] : List Nat))
        (some [((0 : Nat), [0])])
      = .panicked NOT_ENOUGH_VOTING_POWER_MSG) ∧
    process_proposal_digest 1 (fun _ => 0) [((0 : Nat), [0])] = .Reject :=
  ⟨(namadaC2_quorum 2 1 (fun _ => 0) (fun _ => ([] : List Nat)) [((0 : Nat), [0])]).1
      (by decide) (by decide),
   (namadaC2_quorum 2 1 (fun _ => 0) (fun _ => ([] : List Nat)) [((0 : Nat), [0])]).2.2
      [((0 : Nat), [0])] ⟨((0 : Nat), [0]), by decide, by decide⟩⟩

/-! ## Governance tally
(`apps/src/lib/node/ledger/shell/governance.rs`)

The governance storage reads, the vote tally
(`get_proposal_votes`/`compute_tally`) and the WASM execution
(`protocol::apply_tx` + `is_accepted`) are abstracted into a
per-proposal record of their results; events and token transfers are
accumulated in order.  The write-log commit/drop and the transient
`execution_lock` key have no bearing on the claims and are left out. -/

/-- Addresses: the governance and slash-fund internal addresses, and
everything else (e.g. a proposal author). -/
inductive Addr where
  | gov
  | slashFund
  | established (n : Nat)
deriving DecidableEq

/-- The outcome of a fallible read-plus-compute step (`Result` in the
source; error payloads are only logged). -/
inductive GovRes where
  | Ok (accepted : Bool)
  | Err
deriving DecidableEq

/-- Everything `execute_governance_proposals` consults about a single
proposal id: the `funds` and `voting_end_epoch` keys, the `author` and
`proposal_code` keys, the tally
(`get_proposal_votes(..).and_then(compute_tally)`), and the result of
executing the proposal code (`protocol::apply_tx` + `is_accepted`). -/
structure ProposalState where
  funds : Option Nat
  end_epoch : Option Nat
  author : Option Addr
  code : Option (List Nat)
  tally : GovRes
  apply_tx : GovRes
deriving DecidableEq

/-- `TallyResult` (the variants used by the shell). -/
inductive TallyResult where
  | Passed
  | Rejected
  | Failed
deriving DecidableEq

/-- A `Proposal` event: tally result, proposal id, `has_proposal_code`
and `proposal_code_exit_status` flags as passed to
`ProposalEvent::new`. -/
structure ProposalEventRec where
  tally_result : TallyResult
  id : Nat
  has_code : Bool
  exit_status : Bool
deriving DecidableEq

/-- A token transfer `storage.transfer(native_token, amount, src, dest)`. -/
structure TransferRec where
  amount : Nat
  src : Addr
  dest : Addr
deriving DecidableEq

/-- Which of the `ProposalsResult` lists the id is pushed to. -/
inductive ResultMark where
  | passed
  | rejected
  | neitherList
deriving DecidableEq

/-- The error type (`Error::BadProposal`). -/
inductive GovError where
  | BadProposal (id : Nat) (msg : String)
deriving DecidableEq

/-- What one loop iteration produces when it does not error out. -/
structure ProposalOutcome where
  event : ProposalEventRec
  dest : Addr
  mark : ResultMark
  funds : Nat
deriving DecidableEq

/-- The body of the per-proposal loop of
`execute_governance_proposals`: read `funds` and `end_epoch` (`?` on
absence), tally, and in each branch build the `Proposal` event, the
transfer destination and the result-list membership exactly as the
source does. -/
def processOne (id : Nat) (st : ProposalState) : Except GovError ProposalOutcome :=
  match st.funds with
  | none => .error (.BadProposal id "Invalid proposal funds.")
  | some funds =>
  match st.end_epoch with
  | none => .error (.BadProposal id "Invalid proposal end_epoch.")
  | some _end_epoch =>
  match st.tally with
  | .Ok true =>
    match st.author with
    | none => .error (.BadProposal id "Invalid proposal author.")
    | some author =>
      match st.code with
      | some _code =>
        match st.apply_tx with
        | .Ok true => .ok ⟨⟨.Passed, id, true, true⟩, author, .passed, funds⟩
        | .Ok false => .ok ⟨⟨.Passed, id, true, false⟩, .slashFund, .rejected, funds⟩
        | .Err => .ok ⟨⟨.Passed, id, true, false⟩, .slashFund, .rejected, funds⟩
      | none => .ok ⟨⟨.Passed, id, false, false⟩, author, .passed, funds⟩
  | .Ok false => .ok ⟨⟨.Rejected, id, false, false⟩, .slashFund, .rejected, funds⟩
  | .Err => .ok ⟨⟨.Failed, id, false, false⟩, .slashFund, .neitherList, funds⟩

/-- The shell state visible to `execute_governance_proposals`: the
pending proposal-id set (iterated as a list), the per-proposal storage,
and the accumulated response events and fund transfers. -/
structure Shell where
  proposal_data : List Nat
  store : Nat → ProposalState
  events : List ProposalEventRec
  transfers : List TransferRec

/-- `ProposalsResult`. -/
structure ProposalsResult where
  passed : List Nat
  rejected : List Nat
deriving DecidableEq

/-- The proposal loop: on an `Err` from the body the error propagates
(`?`) with the mutations of the earlier iterations kept; otherwise the
event is pushed, the locked funds are transferred from the governance
address to the chosen destination, and the id recorded. -/
def govLoop : List Nat → Shell → ProposalsResult → Shell × Except GovError ProposalsResult
  | [], s, acc => (s, .ok acc)
  | id :: rest, s, acc =>
    match processOne id (s.store id) with
    | .error e => (s, .error e)
    | .ok out =>
      govLoop rest
        { s with
          events := s.events ++ [out.event]
          transfers := s.transfers ++ [⟨out.funds, .gov, out.dest⟩] }
        (match out.mark with
          | .passed => ⟨acc.passed ++ [id], acc.rejected⟩
          | .rejected => ⟨acc.passed, acc.rejected ++ [id]⟩
          | .neitherList => acc)

/-- `execute_governance_proposals`: `std::mem::take(&mut
shell.proposal_data)` empties the pending set at entry, then the loop
runs over the taken ids. -/
def execute_governance_proposals (s : Shell) :
    Shell × Except GovError ProposalsResult :=
  govLoop s.proposal_data { s with proposal_data := [] } ⟨[], []⟩

/-- The proposal loop never touches `proposal_data` or the per-proposal
storage. -/
theorem govLoop_proposal_data (ids : List Nat) (s : Shell) (acc : ProposalsResult) :
    (govLoop ids s acc).1.proposal_data = s.proposal_data := by
  induction ids generalizing s acc with
  | nil => rfl
  | cons id rest ih =>
    simp only [govLoop]
    cases processOne id (s.store id) with
    | error e => rfl
    | ok out => exact ih _ _

/-- On a shell with no pending ids, the tally is a no-op. -/
theorem govExecuteEmpty (t : Shell) (h : t.proposal_data = []) :
    execute_governance_proposals t = (t, .ok ⟨[], []⟩) := by
  obtain ⟨pd, store, evs, trs⟩ := t
  simp only at h
  subst h
  rfl

/-- C10: `execute_governance_proposals` takes the pending proposal-id
set at entry, so afterwards — also on an `Err` return part-way through —
`shell.proposal_data` is empty, and a second call tallies nothing: it
leaves the shell unchanged and returns an empty result. -/
theorem namadaC10_proposal_data_taken (s : Shell) :
    ((execute_governance_proposals s).1).proposal_data = [] ∧
    execute_governance_proposals ((execute_governance_proposals s).1)
      = ((execute_governance_proposals s).1, .ok ⟨[], []⟩) := by
  have hempty : ((execute_governance_proposals s).1).proposal_data = [] := by
    rw [execute_governance_proposals, govLoop_proposal_data]
  exact ⟨hempty, govExecuteEmpty _ hempty⟩

/-- The concrete shell of the C1 counterexample: one pending proposal
whose `funds` key is absent from storage. -/
def shellMissingFunds : Shell :=
  ⟨[1], fun _ => ⟨none, some 9, none, none, .Err, .Err⟩, [], []⟩

/-- C1 counterexample: with the locked-funds key absent,
`execute_governance_proposals` does not produce a `Failed` tally — it
returns `Err(BadProposal)` to the caller, emits no `Proposal` event and
transfers nothing to the slash fund. -/
theorem namadaC1_counterexample :
    (execute_governance_proposals shellMissingFunds).2
        = .error (.BadProposal 1 "Invalid proposal funds.") ∧
    (execute_governance_proposals shellMissingFunds).1.events = [] ∧
    (execute_governance_proposals shellMissingFunds).1.transfers = [] :=
  ⟨rfl, rfl, rfl⟩

/-- The proposal loop splits over an append: the second half runs from
the first half's final state, and an error in the first half
short-circuits the rest. -/
theorem govLoop_append (ids1 ids2 : List Nat) (s : Shell) (acc : ProposalsResult) :
    govLoop (ids1 ++ ids2) s acc
      = (match govLoop ids1 s acc with
          | (s1, .ok acc1) => govLoop ids2 s1 acc1
          | (s1, .error e) => (s1, .error e)) := by
  induction ids1 generalizing s acc with
  | nil => rfl
  | cons id rest ih =>
    simp only [List.cons_append, govLoop]
    cases h : processOne id (s.store id) with
    | error e => rfl
    | ok out => exact ih _ _

/-- C1 as amended, at an arbitrary position of the tallied id list:
with `s'` the shell state after the earlier ids processed successfully,
a missing `funds` key — or a missing `end_epoch` key — makes
`execute_governance_proposals` return `Err(BadProposal)` for that id,
with no event and no transfer for it and the remaining ids skipped;
a failing votes-read/tally computation (with both keys present) instead
yields the `Failed` tally event, forwards the locked funds to the slash
fund, and lets the loop continue with the remaining ids. -/
theorem namadaC1_missing_field (s : Shell) (ids1 : List Nat) (id : Nat)
    (ids2 : List Nat) (s' : Shell) (acc' : ProposalsResult) (f e : Nat)
    (hpd : s.proposal_data = ids1 ++ id :: ids2)
    (hpre : govLoop ids1 { s with proposal_data := [] } ⟨[], []⟩ = (s', .ok acc')) :
    ((s'.store id).funds = none →
      execute_governance_proposals s
        = (s', .error (.BadProposal id "Invalid proposal funds."))) ∧
    ((s'.store id).funds = some f → (s'.store id).end_epoch = none →
      execute_governance_proposals s
        = (s', .error (.BadProposal id "Invalid proposal end_epoch."))) ∧
    ((s'.store id).funds = some f → (s'.store id).end_epoch = some e →
      (s'.store id).tally = .Err →
      execute_governance_proposals s
        = govLoop ids2
            { s' with
              events := s'.events ++ [⟨.Failed, id, false, false⟩]
              transfers := s'.transfers ++ [⟨f, .gov, .slashFund⟩] }
            acc') := by
  have hstep : execute_governance_proposals s = govLoop (id :: ids2) s' acc' := by
    rw [execute_governance_proposals, hpd, govLoop_append, hpre]
  refine ⟨?_, ?_, ?_⟩
  · intro hf
    rw [hstep]
    simp [govLoop, processOne, hf]
  · intro hf he
    rw [hstep]
    simp [govLoop, processOne, hf, he]
  · intro hf he ht
    rw [hstep]
    simp [govLoop, processOne, hf, he, ht]

/-- The C1-amended witness shell: three pending proposals, of which the
second is missing its `funds` key. -/
def shellSkips : Shell :=
  ⟨[1, 2, 3],
   fun n =>
     if n = 2 then ⟨none, some 9, none, none, .Err, .Err⟩
     else ⟨some 10, some 9, none, none, .Err, .Err⟩,
   [], []⟩

/-- The shell state after the first proposal of `shellSkips` is tallied
(`Failed`, funds to the slash fund). -/
def shellSkipsMid : Shell :=
  ⟨[], shellSkips.store, [⟨.Failed, 1, false, false⟩], [⟨10, .gov, .slashFund⟩]⟩

/-- Witness for C1 (amended): the run over `[1, 2, 3]` tallies id 1,
errors on id 2's missing funds key, and skips id 3. -/
theorem namadaC1_missing_field_witness :
    execute_governance_proposals shellSkips
      = (shellSkipsMid, .error (.BadProposal 2 "Invalid proposal funds.")) :=
  (namadaC1_missing_field shellSkips [1] 2 [3] shellSkipsMid ⟨[], []⟩ 0 0 rfl rfl).1 rfl

/-- C8: within the tally loop the locked funds go to the proposal
author exactly when the tally accepted and the proposal either has no
code or its code executed and was accepted; in every other completed
outcome they go to the slash fund. -/
theorem namadaC8_funds_destination (id : Nat) (st : ProposalState)
    (out : ProposalOutcome) (h : processOne id st = .ok out) :
    ((st.tally = .Ok true ∧ (st.code = none ∨ st.apply_tx = .Ok true)) →
      st.author = some out.dest) ∧
    (¬(st.tally = .Ok true ∧ (st.code = none ∨ st.apply_tx = .Ok true)) →
      out.dest = .slashFund) := by
  obtain ⟨funds, ep, author, code, tally, atx⟩ := st
  cases funds with
  | none => exact absurd h (by simp [processOne])
  | some f =>
  cases ep with
  | none => exact absurd h (by simp [processOne])
  | some e =>
  cases tally with
  | Err =>
    simp only [processOne, Except.ok.injEq] at h
    subst h
    exact ⟨fun hc => absurd hc.1 (by simp), fun _ => rfl⟩
  | Ok b =>
  cases b with
  | false =>
    simp only [processOne, Except.ok.injEq] at h
    subst h
    exact ⟨fun hc => absurd hc.1 (by simp), fun _ => rfl⟩
  | true =>
  cases author with
  | none => exact absurd h (by simp [processOne])
  | some a =>
  cases code with
  | none =>
    simp only [processOne, Except.ok.injEq] at h
    subst h
    exact ⟨fun _ => rfl, fun hn => absurd ⟨rfl, Or.inl rfl⟩ hn⟩
  | some c =>
  cases atx with
  | Err =>
    simp only [processOne, Except.ok.injEq] at h
    subst h
    refine ⟨fun hc => ?_, fun _ => rfl⟩
    rcases hc.2 with hc2 | hc2 <;> exact absurd hc2 (by simp)
  | Ok b2 =>
  cases b2 with
  | true =>
    simp only [processOne, Except.ok.injEq] at h
    subst h
    exact ⟨fun _ => rfl, fun hn => absurd ⟨rfl, Or.inr rfl⟩ hn⟩
  | false =>
    simp only [processOne, Except.ok.injEq] at h
    subst h
    refine ⟨fun hc => ?_, fun _ => rfl⟩
    rcases hc.2 with hc2 | hc2 <;> exact absurd hc2 (by simp)

/-- Witness for C8: a passed codeless proposal pays its author. -/
theorem namadaC8_funds_destination_witness :
    (((⟨some 5, some 9, some (.established 3), none, .Ok true, .Err⟩ : ProposalState).tally
          = .Ok true ∧
        ((⟨some 5, some 9, some (.established 3), none, .Ok true, .Err⟩ : ProposalState).code
            = none ∨
          (⟨some 5, some 9, some (.established 3), none, .Ok true, .Err⟩ : ProposalState).apply_tx
            = .Ok true)) →
      (⟨some 5, some 9, some (.established 3), none, .Ok true, .Err⟩ : ProposalState).author
        = some (⟨⟨.Passed, 1, false, false⟩, .established 3, .passed, 5⟩ : ProposalOutcome).dest) ∧
    (¬((⟨some 5, some 9, some (.established 3), none, .Ok true, .Err⟩ : ProposalState).tally
          = .Ok true ∧
        ((⟨some 5, some 9, some (.established 3), none, .Ok true, .Err⟩ : ProposalState).code
            = none ∨
          (⟨some 5, some 9, some (.established 3), none, .Ok true, .Err⟩ : ProposalState).apply_tx
            = .Ok true)) →
      (⟨⟨.Passed, 1, false, false⟩, .established 3, .passed, 5⟩ : ProposalOutcome).dest
        = .slashFund) :=
  namadaC8_funds_destination 1
    ⟨some 5, some 9, some (.established 3), none, .Ok true, .Err⟩
    ⟨⟨.Passed, 1, false, false⟩, .established 3, .passed, 5⟩ rfl

/-! ## Bridge-pool relayer recommendation
(`shared/src/ledger/eth_bridge/bridge_pool.rs`)

The batch recommendation algorithm from the `recommendations` module.
Pool entries are `(hash, cost, gas_fee_amount)` triples as prepared by
`recommend_batch` (the hash string, the `i64` cost
`TRANSFER_FEE - gas_fee.amount * gwei_per_nam`, and the transfer's gas
fee used for the `total_fees` tally). -/

/-- The fixed per-transfer Ethereum gas cost (`TRANSFER_FEE: i64`). -/
def TRANSFER_FEE : Int := 37500

/-- `AlgorithmMode`: `Greedy` keeps only profitable transfers,
`Generous` also allows unprofitable ones. -/
inductive AlgorithmMode where
  | Greedy
  | Generous
deriving DecidableEq

/-- `AlgorithState` together with the loop's running totals and the
recommendation list. -/
structure GenState where
  profitable : Bool
  feasible_region : Bool
  total_gas : Nat
  total_cost : Int
  total_fees : Nat
  recommendation : List String
deriving DecidableEq

/-- The `for` loop of `generate`, transfer by transfer.  A `break`
returns the state as is; otherwise the totals are updated and the hash
pushed according to the cost sign and the mode. -/
def generateLoop (mode : AlgorithmMode) (max_gas : Nat) (max_cost : Int) :
    List (String × Int × Nat) → GenState → GenState
  | [], st => st
  | (hash, cost, fee) :: rest, st =>
    let next_total_gas := st.total_gas + TRANSFER_FEE.toNat
    let next_total_cost := st.total_cost + cost
    let next_total_fees := st.total_fees + fee
    if cost < 0 then
      if next_total_gas ≤ max_gas ∧ next_total_cost ≤ max_cost then
        generateLoop mode max_gas max_cost rest
          { st with
            feasible_region := true
            total_gas := next_total_gas
            total_cost := next_total_cost
            total_fees := next_total_fees
            recommendation := st.recommendation ++ [hash] }
      else if st.feasible_region then
        st
      else
        generateLoop mode max_gas max_cost rest
          { st with
            total_gas := next_total_gas
            total_cost := next_total_cost
            total_fees := next_total_fees
            recommendation := st.recommendation ++ [hash] }
    else if mode = .Generous then
      if st.feasible_region ∧ ¬(next_total_gas ≤ max_gas ∧ next_total_cost ≤ max_cost) then
        st
      else
        generateLoop mode max_gas max_cost rest
          { st with
            profitable := false
            total_gas := next_total_gas
            total_cost := next_total_cost
            total_fees := next_total_fees
            recommendation := st.recommendation ++ [hash] }
    else
      st

/-- `generate`: pick the mode from `max_cost`, run the loop from
`validator_gas`, and return the recommendation only if the feasible
region was reached and it is non-empty. -/
def generate (contents : List (String × Int × Nat)) (validator_gas : Nat)
    (max_gas : Nat) (max_cost : Int) : Option (List String) :=
  let mode : AlgorithmMode := if max_cost ≤ 0 then .Greedy else .Generous
  let final := generateLoop mode max_gas max_cost contents
    ⟨true, false, validator_gas, (validator_gas : Int), 0, []⟩
  if final.feasible_region ∧ final.recommendation ≠ [] then
    some final.recommendation
  else
    none

/-- The `u64::MAX` gas bound (`args.max_gas.unwrap_or(u64::MAX)`). -/
def U64_MAX : Nat := 18446744073709551615

/-- The C3 scenario as the claim words it: 17 transfers whose gas fee
pays `TRANSFER_FEE` exactly, making the per-transfer cost `0`. -/
def zeroCostPool : List (String × Int × Nat) :=
  List.replicate 17 ("h", (0 : Int), 37500)

/-- The pool of the repository's `test_only_profitable` test: 17
transfers with gas fee `100_000`, i.e. cost `37_500 - 100_000 =
-62_500`. -/
def profitablePool : List (String × Int × Nat) :=
  List.replicate 17 ("h", (-62500 : Int), 100000)

/-- In Greedy mode the loop breaks at a non-negative-cost transfer: the
entries from there on never affect the result, whatever the state. -/
theorem generateLoop_greedy_stop (mg : Nat) (mc : Int) (x : String × Int × Nat)
    (hx : 0 ≤ x.2.1) (rest pre : List (String × Int × Nat)) (st : GenState) :
    generateLoop .Greedy mg mc (pre ++ x :: rest) st
      = generateLoop .Greedy mg mc pre st := by
  induction pre generalizing st with
  | nil =>
    obtain ⟨hash, cost, fee⟩ := x
    simp only at hx
    simp only [List.nil_append, generateLoop]
    rw [if_neg (by omega), if_neg (by simp)]
  | cons y pre ih =>
    obtain ⟨hash, cost, fee⟩ := y
    simp only [List.cons_append, generateLoop]
    by_cases hc : cost < 0
    · rw [if_pos hc, if_pos hc]
      by_cases hcond : st.total_gas + TRANSFER_FEE.toNat ≤ mg ∧ st.total_cost + cost ≤ mc
      · rw [if_pos hcond, if_pos hcond]
        exact ih _
      · rw [if_neg hcond, if_neg hcond]
        by_cases hf : st.feasible_region = true
        · rw [if_pos hf, if_pos hf]
        · rw [if_neg hf, if_neg hf]
          exact ih _
    · rw [if_neg hc, if_neg hc, if_neg (by simp), if_neg (by simp)]

/-- C3 counterexample: in Greedy mode (`max_cost = 0`) a pool of 17
transfers whose gas fee pays the per-transfer fee exactly (cost `0`)
with `validator_gas = 800_000` and unbounded gas yields no
recommendation at all — the loop breaks at the very first transfer
because its cost is not **negative** — instead of including all 17 as
the claim states. -/
theorem namadaC3_counterexample :
    generate zeroCostPool 800000 U64_MAX 0 = none := by decide

/-- C3 as amended: Greedy mode stops at the first transfer of
**non-negative** cost (dropping it and everything after it), and the
17-transfer scenario holds for the repository test's pool, whose
transfers pay a gas fee of `100_000 > TRANSFER_FEE` (cost `-62_500`):
with `validator_gas = 800_000`, unbounded gas and `max_cost = 0` the
recommendation includes all 17. -/
theorem namadaC3_greedy_stop (pre rest : List (String × Int × Nat))
    (x : String × Int × Nat) (vg mg : Nat) (mc : Int)
    (hmc : mc ≤ 0) (hx : 0 ≤ x.2.1) :
    generate (pre ++ x :: rest) vg mg mc = generate pre vg mg mc ∧
    generate profitablePool 800000 U64_MAX 0 = some (List.replicate 17 "h") := by
  constructor
  · simp only [generate, if_pos hmc]
    rw [generateLoop_greedy_stop mg mc x hx rest pre]
  · decide

/-- Witness for C3 (amended): appending a zero-cost transfer to the
profitable pool leaves the recommendation unchanged. -/
theorem namadaC3_greedy_stop_witness :
    (generate (profitablePool ++ ("z", (0 : Int), 37500) :: []) 800000 U64_MAX 0
        = generate profitablePool 800000 U64_MAX 0) ∧
    generate profitablePool 800000 U64_MAX 0 = some (List.replicate 17 "h") :=
  namadaC3_greedy_stop profitablePool [] ("z", (0 : Int), 37500) 800000 U64_MAX 0
    (by decide) (by decide)

/-- The exported `recommend_batch` of the live (non-`cfg`-disabled)
`recommendations` module: its body is `todo!()`, which panics with
"not yet implemented" on every input; the client and argument types are
irrelevant since the body never inspects them. -/
def recommend_batch {C A : Type} (_client : C) (_args : A) : PanicOr Unit :=
  .panicked "not yet implemented"

/-- C9: every call of the publicly exported `recommend_batch` panics
(`todo!()`), so no caller ever obtains a recommendation. -/
theorem namadaC9_recommend_batch_todo {C A : Type} (client : C) (args : A) :
    recommend_batch client args = .panicked "not yet implemented" ∧
    ∀ u : Unit, recommend_batch client args ≠ .ok u := by
  refine ⟨rfl, fun u h => ?_⟩
  simp [recommend_batch] at h

/-- Witness for C9 at concrete (unit) client and arguments. -/
theorem namadaC9_recommend_batch_todo_witness :
    recommend_batch () () = .panicked "not yet implemented" :=
  (namadaC9_recommend_batch_todo () ()).1

end Namada
